import Mathlib

/-!
# Verification of the PolarProject analysis scripts

A shallow embedding, in Lean 4, of the computational cores of the
PolarProject repository: the tabular aggregation scripts under
`BaseAnalysis/` (percentage shares, species richness, Shannon diversity,
region sort keys) and the habitat-suitability / raster code under `CMEMS/`
(`CMEMS_Maxent.py`, `CMEMStrans.py`, `CMEMS_ascRead&visualization.py`).

Conventions of the embedding:
* pandas/numpy floating-point values are modelled by `ℚ` where the scripts
  only do field arithmetic, and by `ℝ` where `exp`, `log` or `sqrt` occur;
* IEEE special values produced by division are modelled explicitly by
  `PFloat` (NaN, ±Inf, finite);
* missing values (`NaN` entries of a column) are modelled by `Option`;
* dataframes are lists of rows; `groupby` is modelled by key deduplication
  plus filtering, which preserves exactly the multiset of produced groups.
-/

/-! ## Pandas float semantics for division -/

/-- Result of a pandas float computation: finite value, `NaN`, or `±Inf`. -/
inductive PFloat where
  | nan : PFloat
  | pinf : PFloat
  | ninf : PFloat
  | val : ℚ → PFloat
deriving DecidableEq

/-- Predicate `PFloat.isVal p`: holds when `p` is a finite value. -/
def PFloat.isVal : PFloat → Bool
  | .val _ => true
  | _ => false

/-- The finite value carried by a `PFloat`, if any. -/
def PFloat.toVal : PFloat → Option ℚ
  | .val q => some q
  | _ => none

/-- IEEE-style division followed by `* 100`, as pandas evaluates
`Count / total * 100`: `0/0` is NaN, `c/0` for `c ≠ 0` is `±Inf`,
and otherwise the result is exact.  Counts are integral in the data, so
only the share itself needs rational arithmetic. -/
def pctShare (c total : ℤ) : PFloat :=
  if total = 0 then
    (if c = 0 then .nan else if 0 < c then .pinf else .ninf)
  else .val ((c : ℚ) / (total : ℚ) * 100)

/-! ## `月度物种占比.py` — monthly per-species percentage shares

The script groups observation rows by `(Date, Species)`, sums `Count`
within each group, then divides each group sum by the `transform('sum')`
total of its `Date` bucket and multiplies by 100.  Rows whose date fails
to parse are dropped upstream; here rows carry an already-parsed date key. -/

/-- One observation row of `S39_BM_pre.csv` as used by `月度物种占比.py`:
a (parsed) date key, a species name, and a count. -/
structure ObsRow where
  date : String
  species : String
  count : ℤ
deriving DecidableEq

/-- The distinct `(Date, Species)` group keys, in order of first appearance. -/
def groupKeys (rows : List ObsRow) : List (String × String) :=
  ((rows.map (fun r => (r.date, r.species))).dedup)

/-- Sum of `Count` over the rows of one `(Date, Species)` group
(`data.groupby(['Date','Species'])['Count'].sum()`). -/
def sumCounts (rows : List ObsRow) (d s : String) : ℤ :=
  ((rows.filter (fun r => r.date == d && r.species == s)).map (fun r => r.count)).sum

/-- The aggregated table `monthly_species_count`: one row per
`(Date, Species)` group holding the summed count. -/
def monthly_species_count (rows : List ObsRow) : List (String × String × ℤ) :=
  (groupKeys rows).map (fun k => (k.1, k.2, sumCounts rows k.1 k.2))

/-- Total `monthly_total_count` for a date: the `transform('sum')` of the grouped
counts over all rows of the aggregated table sharing that date. -/
def monthly_total_count (rows : List ObsRow) (d : String) : ℤ :=
  (((monthly_species_count rows).filter (fun t => t.1 == d)).map
    (fun t => t.2.2)).sum

/-- One output row of the script: date, species, group count, and the
percentage share `Count / monthly_total * 100` under pandas semantics. -/
structure PctRow where
  date : String
  species : String
  count : ℤ
  pct : PFloat
deriving DecidableEq

/-- The full output table of `月度物种占比.py`. -/
def percentageRows (rows : List ObsRow) : List PctRow :=
  (monthly_species_count rows).map
    (fun t => ⟨t.1, t.2.1, t.2.2, pctShare t.2.2 (monthly_total_count rows t.1)⟩)

/-! ## `物种丰富度_子区域.py` and `物种丰富度_月度.py` — species richness -/

/-- One observation row as used by the richness scripts: a region code,
a raw date string (`DD-MMM`), a species and a count. -/
structure RichRow where
  region : String
  date : String
  species : String
  count : ℤ
deriving DecidableEq

/-- The month key of a `DD-MMM` date string under the fixed year 2023:
`to_period('M')` keeps only the `MMM` part. -/
def monthOf (s : String) : String :=
  String.mk (((s.toList).dropWhile (fun c => c ≠ '-')).drop 1)

/-- Species richness of one region over the whole year
(`filtered_data.groupby('Region')['Species'].nunique()` after dropping
`Count = 0` rows). -/
def species_richness_by_region (rows : List RichRow) (g : String) : ℕ :=
  (((rows.filter (fun r => decide (0 < r.count))).filter
      (fun r => r.region == g)).map (fun r => r.species)).dedup.length

/-- Species richness of one month
(`filtered_data.groupby(Date.dt.to_period('M'))['Species'].nunique()`
after dropping `Count = 0` rows). -/
def species_richness_month (rows : List RichRow) (m : String) : ℕ :=
  (((rows.filter (fun r => decide (0 < r.count))).filter
      (fun r => monthOf r.date == m)).map (fun r => r.species)).dedup.length

/-! ## `物种丰富度_子区域.py` — the region sort key

```python
def region_sort_key(region):
    number = ''
    letter = ''
    for char in region:
        if char.isdigit():
            number += char
        else:
            letter = char
    return (int(number) if number else 0, letter)
```
The digit accumulator is modelled by an `Option ℕ` (`none` = the empty
string, so that `int(number) if number else 0` is `Option.getD 0`);
appending a digit char to the decimal string is `· * 10 + digit`. -/

/-- One step of the `for char in region` loop of `region_sort_key`. -/
def regionKeyStep (acc : Option ℕ × String) (c : Char) : Option ℕ × String :=
  if c.isDigit then (some ((acc.1.getD 0) * 10 + (c.toNat - 48)), acc.2)
  else (acc.1, String.mk [c])

/-- The sort key of `物种丰富度_子区域.py`: the integer formed by the digit
characters of the code, and the last non-digit character (as a string,
empty when the code is all digits). -/
def region_sort_key (s : String) : ℕ × String :=
  let r := s.toList.foldl regionKeyStep (none, "")
  (r.1.getD 0, r.2)

/-- Comparison of two sort keys as Python compares the returned tuples:
first component first, second (string) component as tiebreak. -/
def keyLt (a b : ℕ × String) : Prop :=
  a.1 < b.1 ∨ (a.1 = b.1 ∧ a.2 < b.2)

instance (a b : ℕ × String) : Decidable (keyLt a b) := by
  unfold keyLt; infer_instance

/-- The sort key as the spec words it: the numeric *prefix* of the code
read as a decimal integer, paired with the trailing letter substring. -/
def specRegionKey (s : String) : ℕ × String :=
  (Nat.ofDigits 10 (((s.toList.takeWhile Char.isDigit).map
      (fun c => c.toNat - 48)).reverse),
   String.mk (s.toList.dropWhile Char.isDigit))

/-! ## `香农指数-月度.py` — monthly Shannon diversity

```python
filtered_data = data[data['Count'] > 0]
def calculate_shannon_diversity(group):
    proportions = group['Count'] / float(group['Count'].sum())
    shannon_index = -np.sum(proportions * np.log(proportions))
```
The proportions are per *row* of the month group, not per species. -/

/-- Function `calculate_shannon_diversity` on the count column of one month group:
`-Σ pᵢ ln pᵢ` with `pᵢ = cᵢ / Σ c`. -/
noncomputable def calculate_shannon_diversity (counts : List ℤ) : ℝ :=
  -((counts.map (fun c : ℤ =>
      ((c : ℝ) / ((counts.sum : ℤ) : ℝ)) *
        Real.log ((c : ℝ) / ((counts.sum : ℤ) : ℝ)))).sum)

/-- The month-bucket pipeline of `香农指数-月度.py` applied to one bucket:
drop `Count = 0` rows, then take the Shannon index of the count column.
Rows are `(Species, Count)` pairs. -/
noncomputable def shannonOfMonth (rows : List (String × ℤ)) : ℝ :=
  calculate_shannon_diversity
    ((rows.filter (fun r => decide (0 < r.2))).map (fun r => r.2))

/-- Number of distinct species/categories with nonzero share in a month
bucket (after the `Count > 0` filter). -/
def speciesCountOfMonth (rows : List (String × ℤ)) : ℕ :=
  ((rows.filter (fun r => decide (0 < r.2))).map (fun r => r.1)).dedup.length

/-! ## `CMEMS_Maxent.py` — habitat suitability builder

### Environmental statistics (`_calculate_environmental_stats`)

For each of the six covariate columns `TempW, Salinity, Detph, pH, CHL,
O2Con`, the per-species statistics dict gets an entry iff the column has
more than 5 non-missing values; the entry holds the sample mean and the
pandas (ddof = 1) standard deviation of those values. -/

/-- The statistic stored for one usable covariate (only `mean`/`std` are
consumed downstream; `min`/`max`/quartiles are never read). -/
structure CovStat where
  mean : ℝ
  std : ℝ

/-- The per-species environmental statistics dict `env_stats`: one optional
entry per covariate column. -/
structure EnvStats where
  tempW : Option CovStat
  salinity : Option CovStat
  detph : Option CovStat
  pH : Option CovStat
  chl : Option CovStat
  o2con : Option CovStat

/-- Value of `len(env_stats)`: the number of covariates holding a usable statistic. -/
def usableCount (st : EnvStats) : ℕ :=
  (cond st.tempW.isSome 1 0) + (cond st.salinity.isSome 1 0) +
  (cond st.detph.isSome 1 0) + (cond st.pH.isSome 1 0) +
  (cond st.chl.isSome 1 0) + (cond st.o2con.isSome 1 0)

/-- One observation row of `JTRES.csv` after the
`dropna(subset=['LAT','LONG','Species'])` cleaning step: the species name
and the six (possibly missing) environmental covariate columns. -/
structure Obs where
  species : String
  tempW : Option ℚ
  salinity : Option ℚ
  detph : Option ℚ
  pH : Option ℚ
  chl : Option ℚ
  o2con : Option ℚ
deriving DecidableEq

/-- Mean `values.mean()` of a non-missing sample list, as a real. -/
noncomputable def sampleMean (values : List ℚ) : ℝ :=
  ((values.sum : ℚ) : ℝ) / (values.length : ℝ)

/-- Standard deviation `values.std()` (pandas, ddof = 1) of a non-missing sample list. -/
noncomputable def sampleStd (values : List ℚ) : ℝ :=
  Real.sqrt (((values.map (fun v => ((v : ℝ) - sampleMean values) ^ 2)).sum) /
    ((values.length : ℝ) - 1))

/-- The statistic of one covariate column: present iff the column has more
than 5 non-missing values (`if len(values) > 5`). -/
noncomputable def mkStat (values : List ℚ) : Option CovStat :=
  if 5 < values.length then some ⟨sampleMean values, sampleStd values⟩ else none

/-- Embedding of `_calculate_environmental_stats`: the `env_stats` dict of one species'
rows. -/
noncomputable def calculate_environmental_stats (rows : List Obs) : EnvStats where
  tempW := mkStat (rows.filterMap (fun r => r.tempW))
  salinity := mkStat (rows.filterMap (fun r => r.salinity))
  detph := mkStat (rows.filterMap (fun r => r.detph))
  pH := mkStat (rows.filterMap (fun r => r.pH))
  chl := mkStat (rows.filterMap (fun r => r.chl))
  o2con := mkStat (rows.filterMap (fun r => r.o2con))

/-! ### Species selection (`_analyze_by_species`)

`value_counts` of the `Species` column, keeping only species with at least
`min_observations = 15` rows; `species_data` (and hence a suitability grid)
is built exactly for the kept species. -/

/-- Number of observation rows of one species (its `value_counts` entry). -/
def countObs (rows : List Obs) (s : String) : ℕ :=
  (rows.filter (fun r => r.species == s)).length

/-- The list `valid_species`: the distinct species whose observation count reaches
the `min_observations = 15` threshold; exactly these get an entry in
`species_data` and later a suitability grid. -/
def valid_species (rows : List Obs) : List String :=
  ((rows.map (fun r => r.species)).dedup).filter (fun s => decide (15 ≤ countObs rows s))

/-! ### Environmental suitability (`_calculate_environmental_suitability`)

All array operations are elementwise in the latitude mesh, so the term is
modelled per grid cell as a function of the cell's latitude:

```python
if len(env_stats) < 2:
    return np.ones_like(lat_mesh) * 0.5
env_suitability = np.ones_like(lat_mesh)
if 'TempW' in env_stats:
    estimated_temp = -2.0 + (lat_mesh + 80) * 0.5
    temp_suitability = np.exp(-0.5 * ((estimated_temp - temp_optimal) / (temp_tolerance + 0.1)) ** 2)
    env_suitability *= temp_suitability
if 'Detph' in env_stats:
    estimated_depth = 200 + np.abs(lat_mesh + 77) * 100
    depth_suitability = np.exp(-0.5 * ((estimated_depth - depth_optimal) / (depth_tolerance + 50)) ** 2)
    env_suitability *= depth_suitability
return env_suitability
``` -/

/-- The deterministic latitude-to-temperature proxy of the code. -/
noncomputable def estimatedTemp (lat : ℝ) : ℝ := -2.0 + (lat + 80) * 0.5

/-- The deterministic latitude-to-depth proxy of the code. -/
noncomputable def estimatedDepth (lat : ℝ) : ℝ := 200 + |lat + 77| * 100

/-- Gaussian falloff of an estimated covariate value around a species mean,
with the tolerance (std) widened by an additive floor. -/
noncomputable def gaussScore (x m s floor : ℝ) : ℝ :=
  Real.exp (-0.5 * ((x - m) / (s + floor)) ^ 2)

/-- Embedding of `_calculate_environmental_suitability` at one grid cell of latitude
`lat`. -/
noncomputable def calculate_environmental_suitability
    (stats : EnvStats) (lat : ℝ) : ℝ :=
  if usableCount stats < 2 then 0.5
  else
    let e0 : ℝ := 1
    let e1 := match stats.tempW with
      | some c => e0 * gaussScore (estimatedTemp lat) c.mean c.std 0.1
      | none => e0
    let e2 := match stats.detph with
      | some c => e1 * gaussScore (estimatedDepth lat) c.mean c.std 50
      | none => e1
    e2

/-- One multiplicative factor of the environmental product as claimed: a
usable covariate contributes a Gaussian-falloff score of some estimated
value `x` with some additive floor `f`; a missing one contributes `1`. -/
noncomputable def covFactor (o : Option CovStat) (x f : ℝ) : ℝ :=
  match o with
  | some c => gaussScore x c.mean c.std f
  | none => 1

/-- The claimed shape of the environmental term: *every* usable covariate
is scored by a Gaussian falloff around its mean (std plus an additive
floor) at a value derived from latitude by a per-covariate deterministic
proxy, and all scores are multiplied.  The proxies `p*` and floors `f*`
are parameters of the shape. -/
noncomputable def claimedEnvProduct
    (pT pS pD pP pC pO : ℝ → ℝ) (fT fS fD fP fC fO : ℝ)
    (stats : EnvStats) (lat : ℝ) : ℝ :=
  covFactor stats.tempW (pT lat) fT * covFactor stats.salinity (pS lat) fS *
  covFactor stats.detph (pD lat) fD * covFactor stats.pH (pP lat) fP *
  covFactor stats.chl (pC lat) fC * covFactor stats.o2con (pO lat) fO

/-- All stored standard deviations of a statistics dict are non-negative
(true of every dict the code computes, since pandas `std` is a square
root). -/
def stdsNonneg (stats : EnvStats) : Prop :=
  (∀ c ∈ stats.tempW, 0 ≤ c.std) ∧ (∀ c ∈ stats.salinity, 0 ≤ c.std) ∧
  (∀ c ∈ stats.detph, 0 ≤ c.std) ∧ (∀ c ∈ stats.pH, 0 ≤ c.std) ∧
  (∀ c ∈ stats.chl, 0 ≤ c.std) ∧ (∀ c ∈ stats.o2con, 0 ≤ c.std)

/-- Claim C1 as stated: for some choice of deterministic per-covariate
latitude proxies and additive floors, the code's environmental term equals,
for every statistics dict with at least 2 usable covariates (with
non-negative stds) and every latitude, the product of the Gaussian scores
of all usable covariates. -/
def environmentalClaimHolds : Prop :=
  ∃ (pT pS pD pP pC pO : ℝ → ℝ) (fT fS fD fP fC fO : ℝ),
    ∀ (stats : EnvStats) (lat : ℝ), 2 ≤ usableCount stats → stdsNonneg stats →
      calculate_environmental_suitability stats lat =
        claimedEnvProduct pT pS pD pP pC pO fT fS fD fP fC fO stats lat

/-! ### Combination and rescaling (`_calculate_habitat_suitability`)

The grid is modelled as the flat list of its cells (`numpy` arrays combine
elementwise; `.max()` folds over all cells). -/

/-- The numpy `.max()` over the cells of a (nonempty) grid; `0` for the empty
grid, which the builder never produces. -/
noncomputable def npMax : List ℝ → ℝ
  | [] => 0
  | h :: t => t.foldl max h

/-- Combination `np.sqrt(suitability_density * suitability_env)`, elementwise. -/
noncomputable def combinedSuitability (density envs : List ℝ) : List ℝ :=
  List.zipWith (fun d e => Real.sqrt (d * e)) density envs

/-- Embedding of `_calculate_habitat_suitability` after its two terms are computed:
geometric-mean combination, then rescaling by the maximum unless the
maximum is not positive. -/
noncomputable def calculate_habitat_suitability (density envs : List ℝ) : List ℝ :=
  let c := combinedSuitability density envs
  if 0 < npMax c then c.map (fun v => v / npMax c) else c

/-! ## `CMEMStrans.py` / `CMEMS_ascRead&visualization.py` — raster files

### Writer (`save_monthly_layer`)

```python
data = np.where(np.isnan(data), -9999, data)
data = np.where(np.isinf(data), -9999, data)
if len(lats) > 1 and lats[0] < lats[-1]:
    lats = lats[::-1]; data = np.flipud(data)
...
f.write("NODATA_value -9999\n")
for row in data:
    row_str = " ".join([f"{val:.4f}" if val != -9999 else "-9999" for val in row])
```

A written token is modelled by the rational it parses back to.

### Reader (`ASCReader.read_asc_file`)

Parses the six header lines, reads the value matrix, then replaces every
cell equal to the header's `nodata_value` (written as `-9999`) by `NaN`
(modelled as `none`) — before any statistic is taken of the grid. -/

/-- One cell of the array handed to the writer: finite, `NaN` or `±Inf`. -/
inductive Cell where
  | nan : Cell
  | pinf : Cell
  | ninf : Cell
  | val : ℚ → Cell
deriving DecidableEq

/-- The two `np.where` sentinel substitutions of the writer. -/
def encodeCell : Cell → ℚ
  | .val q => q
  | _ => -9999

/-- Rounding to 4 decimal places, as `f"{val:.4f}"` renders a value. -/
def round4 (q : ℚ) : ℚ := (round (q * 10000) : ℤ) / 10000

/-- The rational a written token parses back to: the sentinel is written
verbatim, every other value is written rounded to 4 decimals. -/
def writeToken (v : ℚ) : ℚ := if v ≠ -9999 then round4 v else -9999

/-- The writer's latitude-orientation test `len(lats) > 1 and lats[0] <
lats[-1]`. -/
def ascendingLats (lats : List ℚ) : Bool :=
  match lats with
  | [] => false
  | a :: rest =>
    match rest.getLast? with
    | none => false
    | some b => decide (a < b)

/-- The value matrix written by `save_monthly_layer`: rows flipped when the
latitudes ascend, every cell sentinel-encoded and formatted. -/
def save_monthly_layer (lats : List ℚ) (rows : List (List Cell)) : List (List ℚ) :=
  let d := if ascendingLats lats then rows.reverse else rows
  d.map (fun r => r.map (fun c => writeToken (encodeCell c)))

/-- The reader's per-cell `nodata` substitution
(`self.data[self.data == nodata_value] = np.nan` with the written
`nodata_value` of `-9999`); `none` models `NaN`. -/
def readCell (v : ℚ) : Option ℚ := if v = -9999 then none else some v

/-- Embedding of `ASCReader.read_asc_file` on the value matrix of a written file. -/
def read_asc_file (file : List (List ℚ)) : List (List (Option ℚ)) :=
  file.map (fun r => r.map readCell)

/-- Statistic `np.nanmin` over a parsed grid: the least of the non-`NaN` cells. -/
def nanMin (g : List (List (Option ℚ))) : Option ℚ :=
  (g.flatten.filterMap id).min?

/-- The per-cell round trip the code actually performs: non-finite cells
and finite cells indistinguishable from the sentinel after formatting come
back as `NaN`; every other finite value comes back as its 4-decimal
rounding. -/
def expectedRoundTrip : Cell → Option ℚ
  | .val q =>
      if q = -9999 then none
      else if round4 q = -9999 then none else some (round4 q)
  | _ => none

/-- The per-cell round trip as claim C3 states it: every finite value comes
back (up to 4-decimal rounding), only `NaN`/`Inf` cells come back as
`NaN`. -/
def claimedRoundTrip : Cell → Option ℚ
  | .val q => some (round4 q)
  | _ => none

/-! ## Helper lemmas -/

/-- The seed of a `foldl max` is a lower bound of the result. -/
theorem seed_le_foldl_max (t : List ℝ) : ∀ a : ℝ, a ≤ t.foldl max a := by
  induction t with
  | nil => intro a; simp
  | cons b t ih =>
    intro a
    calc a ≤ max a b := le_max_left a b
    _ ≤ t.foldl max (max a b) := ih (max a b)

/-- Every member of the list is a lower bound of a `foldl max`. -/
theorem mem_le_foldl_max (t : List ℝ) : ∀ (a x : ℝ), x ∈ t → x ≤ t.foldl max a := by
  induction t with
  | nil => intro a x hx; cases hx
  | cons b t ih =>
    intro a x hx
    rcases List.mem_cons.mp hx with rfl | hx
    · exact le_trans (le_max_right a x) (seed_le_foldl_max t (max a x))
    · exact ih (max a b) x hx

/-- The grid maximum `npMax` dominates every cell of the grid. -/
theorem le_npMax_of_mem {l : List ℝ} {x : ℝ} (h : x ∈ l) : x ≤ npMax l := by
  cases l with
  | nil => cases h
  | cons a t =>
    rcases List.mem_cons.mp h with rfl | h
    · exact seed_le_foldl_max t x
    · exact mem_le_foldl_max t a x h

/-- A `foldl max` is the seed or a member of the list. -/
theorem foldl_max_cases (t : List ℝ) : ∀ a : ℝ, t.foldl max a = a ∨ t.foldl max a ∈ t := by
  induction t with
  | nil => intro a; left; rfl
  | cons b t ih =>
    intro a
    rw [List.foldl_cons]
    rcases ih (max a b) with h | h
    · rw [h]
      rcases max_choice a b with hm | hm
      · left; exact hm
      · right; rw [hm]; exact List.mem_cons_self b t
    · right; exact List.mem_cons_of_mem b h

/-- The grid maximum `npMax` of a nonempty grid is one of its cells. -/
theorem npMax_mem {l : List ℝ} (h : l ≠ []) : npMax l ∈ l := by
  cases l with
  | nil => exact absurd rfl h
  | cons a t =>
    show t.foldl max a ∈ a :: t
    rcases foldl_max_cases t a with hc | hc
    · rw [hc]; exact List.mem_cons_self a t
    · exact List.mem_cons_of_mem a hc

/-- A member of a `zipWith` is an image of the combining function. -/
theorem shape_of_mem_zipWith {α β γ : Type} {f : α → β → γ} :
    ∀ (l1 : List α) (l2 : List β) (v : γ), v ∈ List.zipWith f l1 l2 →
      ∃ a b, v = f a b := by
  intro l1
  induction l1 with
  | nil => intro l2 v hv; simp at hv
  | cons a t ih =>
    intro l2 v hv
    cases l2 with
    | nil => simp at hv
    | cons b u =>
      rw [List.zipWith_cons_cons] at hv
      rcases List.mem_cons.mp hv with rfl | hv
      · exact ⟨a, b, rfl⟩
      · exact ih u v hv

/-- Every cell of a combined grid is a square root, hence non-negative. -/
theorem combined_nonneg {density envs : List ℝ} {v : ℝ}
    (h : v ∈ combinedSuitability density envs) : 0 ≤ v := by
  unfold combinedSuitability at h
  rcases shape_of_mem_zipWith density envs v h with ⟨d, e, rfl⟩
  exact Real.sqrt_nonneg _

/-- A list of non-negative integers summing to zero is all zeros. -/
theorem sum_zero_all_zero : ∀ l : List ℤ, (∀ x ∈ l, 0 ≤ x) → l.sum = 0 →
    ∀ x ∈ l, x = 0 := by
  intro l
  induction l with
  | nil => intro _ _ x hx; cases hx
  | cons a t ih =>
    intro hnn hsum x hx
    have hts : 0 ≤ t.sum := List.sum_nonneg (fun y hy => hnn y (List.mem_cons_of_mem a hy))
    have ha : 0 ≤ a := hnn a (List.mem_cons_self a t)
    have hsum' : a + t.sum = 0 := by simpa using hsum
    rcases List.mem_cons.mp hx with rfl | hx
    · omega
    · exact ih (fun y hy => hnn y (List.mem_cons_of_mem a hy)) (by omega) x hx

/-- A nonempty list of negative reals has negative sum. -/
theorem sum_neg_of_all_neg : ∀ l : List ℝ, l ≠ [] → (∀ x ∈ l, x < 0) → l.sum < 0 := by
  intro l
  induction l with
  | nil => intro h; exact absurd rfl h
  | cons a t ih =>
    intro _ hneg
    have ha : a < 0 := hneg a (List.mem_cons_self a t)
    cases t with
    | nil => simpa using ha
    | cons b u =>
      have hts : (b :: u).sum < 0 :=
        ih (by simp) (fun y hy => hneg y (List.mem_cons_of_mem a hy))
      have : (a :: b :: u).sum = a + (b :: u).sum := by simp
      rw [this]; linarith

/-- The std fields of a dict with only salinity and pH statistics are
non-negative as soon as the two stored stds are. -/
theorem stdsNonneg_salinity_pH (m1 m2 : ℝ) {s1 s2 : ℝ} (h1 : 0 ≤ s1) (h2 : 0 ≤ s2) :
    stdsNonneg ⟨none, some ⟨m1, s1⟩, none, some ⟨m2, s2⟩, none, none⟩ := by
  refine ⟨?_, ?_, ?_, ?_, ?_, ?_⟩ <;> intro c hc
  · exact absurd hc (Option.not_mem_none c)
  · rw [Option.mem_def, Option.some.injEq] at hc; subst hc; exact h1
  · exact absurd hc (Option.not_mem_none c)
  · rw [Option.mem_def, Option.some.injEq] at hc; subst hc; exact h2
  · exact absurd hc (Option.not_mem_none c)
  · exact absurd hc (Option.not_mem_none c)

/-- A Gaussian falloff score of a zero offset is 1. -/
theorem gaussScore_self (m s f : ℝ) : gaussScore m m s f = 1 := by
  unfold gaussScore
  simp

/-- Statistic builder `mkStat` produces a statistic exactly for columns with at least 6
non-missing samples. -/
theorem isSome_mkStat (values : List ℚ) :
    (mkStat values).isSome ↔ 6 ≤ values.length := by
  unfold mkStat
  split <;> simp <;> omega

/-! ## Claim C10 -/

/-- C10: for a statistics dict with at least 2 usable covariates but with
neither `TempW` nor `Detph` usable, the environmental term of
`_calculate_environmental_suitability` is 1.0 at every grid cell — not the
uniform 0.5 no-information grid. -/
theorem C10_env_term_is_one (stats : EnvStats) (lat : ℝ)
    (h2 : 2 ≤ usableCount stats) (ht : stats.tempW = none)
    (hd : stats.detph = none) :
    calculate_environmental_suitability stats lat = 1 := by
  unfold calculate_environmental_suitability
  rw [if_neg (by omega)]
  simp [ht, hd]

/-- Witness for C10 at a concrete dict with usable salinity and pH only. -/
theorem C10_env_term_is_one_witness :
    calculate_environmental_suitability
      ⟨none, some ⟨34, 1⟩, none, some ⟨8, 1⟩, none, none⟩ (-75) = 1 :=
  C10_env_term_is_one _ _ (by decide) rfl rfl

/-! ## Claim C1 -/

/-- C1 (amended): with at least 2 usable covariate statistics, the
environmental term multiplies Gaussian-falloff scores of *only* the water
temperature (`TempW`, latitude-proxy estimate, floor 0.1) and depth
(`Detph`, latitude-proxy estimate, floor 50) covariates; every other
usable covariate contributes no factor. -/
theorem C1_env_product_temp_depth_only (stats : EnvStats) (lat : ℝ)
    (h2 : 2 ≤ usableCount stats) :
    calculate_environmental_suitability stats lat =
      covFactor stats.tempW (estimatedTemp lat) 0.1 *
      covFactor stats.detph (estimatedDepth lat) 50 := by
  unfold calculate_environmental_suitability covFactor
  rw [if_neg (by omega)]
  cases stats.tempW <;> cases stats.detph <;> simp

/-- Witness for the amended C1 at a dict with usable `TempW` and `Detph`. -/
theorem C1_env_product_temp_depth_only_witness :
    calculate_environmental_suitability
        ⟨some ⟨1, 2⟩, none, some ⟨500, 100⟩, none, none, none⟩ (-75) =
      covFactor (some ⟨1, 2⟩) (estimatedTemp (-75)) 0.1 *
      covFactor (some ⟨500, 100⟩) (estimatedDepth (-75)) 50 :=
  C1_env_product_temp_depth_only _ _ (by decide)

/-- C1 as stated is false: no choice of deterministic latitude proxies and
additive floors makes the environmental term equal, for every statistics
dict with at least 2 usable covariates, the product of the Gaussian scores
of all usable covariates — the code ignores usable covariates other than
`TempW` and `Detph` (here: a salinity statistic whose mean changes without
changing the term). -/
theorem C1_counterexample : ¬ environmentalClaimHolds := by
  rintro ⟨pT, pS, pD, pP, pC, pO, fT, fS, fD, fP, fC, fO, h⟩
  set q : ℝ := pS 0 with hq
  set s : ℝ := max (1 - fS) 0 with hs
  set d : ℝ := s + fS with hd
  have hd1 : d = max 1 fS := by
    rw [hd, hs, ← max_add_add_right]; norm_num
  have hdpos : 0 < d := lt_of_lt_of_le one_pos (hd1 ▸ le_max_left 1 fS)
  have hsnn : 0 ≤ s := hs ▸ le_max_right (1 - fS) 0
  have e1 := h ⟨none, some ⟨q, s⟩, none, some ⟨8, 1⟩, none, none⟩ 0
    (by norm_num [usableCount]) (stdsNonneg_salinity_pH q 8 hsnn zero_le_one)
  have e2 := h ⟨none, some ⟨q + d, s⟩, none, some ⟨8, 1⟩, none, none⟩ 0
    (by norm_num [usableCount]) (stdsNonneg_salinity_pH (q + d) 8 hsnn zero_le_one)
  rw [show calculate_environmental_suitability
        ⟨none, some ⟨q, s⟩, none, some ⟨8, 1⟩, none, none⟩ 0 = 1 by
      unfold calculate_environmental_suitability
      rw [if_neg (by norm_num [usableCount])]] at e1
  rw [show calculate_environmental_suitability
        ⟨none, some ⟨q + d, s⟩, none, some ⟨8, 1⟩, none, none⟩ 0 = 1 by
      unfold calculate_environmental_suitability
      rw [if_neg (by norm_num [usableCount])]] at e2
  unfold claimedEnvProduct covFactor at e1 e2
  simp only [one_mul, mul_one] at e1 e2
  rw [gaussScore_self] at e1
  have hgauss2 : gaussScore q (q + d) s fS = Real.exp (-0.5) := by
    unfold gaussScore
    rw [← hd]
    have hne : (q - (q + d)) / d = -1 := by
      field_simp
    rw [hne]
    norm_num
  rw [hgauss2] at e2
  set P : ℝ := gaussScore (pP 0) 8 1 fP with hP
  have hPpos : 0 < P := Real.exp_pos _
  have hlt : Real.exp (-0.5) < 1 := Real.exp_lt_one_iff.mpr (by norm_num)
  simp only [one_mul] at e1
  nlinarith [e1, e2, hPpos, hlt]

/-! ## Claim C2 -/

/-- C2: for every density grid and environmental grid, the combined grid
`sqrt(density × environmental)` after rescaling has every cell in `[0, 1]`;
its maximum is exactly 1 whenever some combined cell is nonzero; and when
the combined maximum is 0 the rescaling is skipped and the grid is
returned unchanged, all cells being zero. -/
theorem C2_rescaled_range (density envs : List ℝ) :
    (∀ v ∈ calculate_habitat_suitability density envs, 0 ≤ v ∧ v ≤ 1) ∧
    ((∃ v ∈ combinedSuitability density envs, v ≠ 0) →
      npMax (calculate_habitat_suitability density envs) = 1) ∧
    (npMax (combinedSuitability density envs) = 0 →
      calculate_habitat_suitability density envs =
        combinedSuitability density envs ∧
      ∀ v ∈ calculate_habitat_suitability density envs, v = 0) := by
  set c := combinedSuitability density envs with hc
  set M := npMax c with hM
  have hdef : calculate_habitat_suitability density envs =
      if 0 < M then c.map (fun v => v / M) else c := rfl
  refine ⟨?_, ?_, ?_⟩
  · intro v hv
    rw [hdef] at hv
    by_cases hpos : 0 < M
    · rw [if_pos hpos] at hv
      rcases List.mem_map.mp hv with ⟨w, hw, rfl⟩
      have hw0 : 0 ≤ w := combined_nonneg (hc ▸ hw)
      have hwM : w ≤ M := hM ▸ le_npMax_of_mem hw
      exact ⟨div_nonneg hw0 hpos.le, (div_le_one hpos).mpr hwM⟩
    · rw [if_neg hpos] at hv
      have hv0 : 0 ≤ v := combined_nonneg (hc ▸ hv)
      have hvM : v ≤ M := hM ▸ le_npMax_of_mem hv
      push_neg at hpos
      exact ⟨hv0, le_trans (le_trans hvM hpos) zero_le_one⟩
  · rintro ⟨v, hv, hvne⟩
    have hv0 : 0 ≤ v := combined_nonneg (hc ▸ hv)
    have hvpos : 0 < v := lt_of_le_of_ne hv0 (Ne.symm hvne)
    have hpos : 0 < M := lt_of_lt_of_le hvpos (hM ▸ le_npMax_of_mem hv)
    have hout : calculate_habitat_suitability density envs =
        c.map (fun w => w / M) := by
      rw [hdef, if_pos hpos]
    rw [hout]
    have hcne : c ≠ [] := by
      intro hnil
      rw [hnil] at hv
      cases hv
    have hMmem : M ∈ c := hM ▸ npMax_mem hcne
    have h1mem : (1 : ℝ) ∈ c.map (fun w => w / M) :=
      List.mem_map.mpr ⟨M, hMmem, div_self hpos.ne'⟩
    have hmapne : c.map (fun w => w / M) ≠ [] := by
      intro hnil
      rw [hnil] at h1mem
      cases h1mem
    have hub : ∀ u ∈ c.map (fun w => w / M), u ≤ 1 := by
      intro u hu
      rcases List.mem_map.mp hu with ⟨w, hw, rfl⟩
      exact (div_le_one hpos).mpr (hM ▸ le_npMax_of_mem hw)
    exact le_antisymm (hub _ (npMax_mem hmapne)) (le_npMax_of_mem h1mem)
  · intro hzero
    have hout : calculate_habitat_suitability density envs = c := by
      rw [hdef, if_neg (by rw [hzero]; exact lt_irrefl 0)]
    refine ⟨hout, ?_⟩
    rw [hout]
    intro v hv
    have hv0 : 0 ≤ v := combined_nonneg (hc ▸ hv)
    have hvM : v ≤ M := hM ▸ le_npMax_of_mem hv
    linarith

/-- Witness for C2 on the concrete grids `density = [1, 0]`,
`env = [1, 1]`. -/
theorem C2_rescaled_range_witness :
    npMax (calculate_habitat_suitability [1, 0] [1, 1]) = 1 :=
  (C2_rescaled_range [1, 0] [1, 1]).2.1
    ⟨Real.sqrt (1 * 1), by simp [combinedSuitability], by simp⟩

/-! ## Claim C3 -/

/-- The round trip of one written cell is exactly `expectedRoundTrip`. -/
theorem readCell_writeToken (c : Cell) :
    readCell (writeToken (encodeCell c)) = expectedRoundTrip c := by
  cases c with
  | val q =>
    unfold encodeCell writeToken readCell expectedRoundTrip
    by_cases hq : q = -9999
    · simp [hq]
    · by_cases hr : round4 q = -9999 <;> simp [hq, hr]
  | nan => rfl
  | pinf => rfl
  | ninf => rfl

/-- C3 is false as stated: a finite cell holding exactly the sentinel value
`-9999` is not reproduced up to 4-decimal rounding — it is read back as the
no-data marker (`NaN`) instead. -/
theorem C3_counterexample :
    read_asc_file (save_monthly_layer [0] [[Cell.val (-9999)]]) ≠
      [[claimedRoundTrip (Cell.val (-9999))]] := by
  have hlhs : read_asc_file (save_monthly_layer [0] [[Cell.val (-9999)]]) =
      [[none]] := by
    norm_num [read_asc_file, save_monthly_layer, ascendingLats, writeToken,
      encodeCell, readCell]
  rw [hlhs]
  unfold claimedRoundTrip
  simp

/-- C3 (amended): writing a grid and re-reading it reproduces the array up
to the writer's row reordering (rows are reversed when the input latitudes
ascend): NaN/Inf cells come back as `NaN`; a finite cell equal to the
sentinel, or whose 4-decimal rounding equals the sentinel, also comes back
as `NaN`; every other cell comes back exactly as its 4-decimal rounding.
Moreover the reader substitutes `NaN` for sentinel cells before any
statistic: `np.nanmin` of a parsed grid ranges only over the non-sentinel
values of the file. -/
theorem C3_raster_roundtrip :
    (∀ (lats : List ℚ) (rows : List (List Cell)),
      read_asc_file (save_monthly_layer lats rows) =
        (if ascendingLats lats then rows.reverse else rows).map
          (fun r => r.map expectedRoundTrip)) ∧
    (∀ file : List (List ℚ),
      nanMin (read_asc_file file) =
        (file.flatten.filter (fun v => !(v == -9999))).min?) := by
  constructor
  · intro lats rows
    unfold read_asc_file save_monthly_layer
    rw [List.map_map]
    congr 1
    funext r
    simp only [Function.comp_apply, List.map_map]
    congr 1
    funext cc
    exact readCell_writeToken cc
  · intro file
    unfold nanMin read_asc_file
    rw [← List.map_flatten, List.filterMap_map]
    have hswap : (List.filterMap (id ∘ readCell) file.flatten) =
        List.filterMap readCell file.flatten := rfl
    rw [hswap]
    congr 1
    induction file.flatten with
    | nil => rfl
    | cons a t ih =>
      by_cases h : a = -9999
      · simp [readCell, h, List.filterMap_cons, ih]
      · simp [readCell, h, List.filterMap_cons, ih]

/-! ## Claims C4 and C5 -/

/-- Restricting the output table to one date bucket is the image of the
corresponding restriction of the aggregated table. -/
theorem filter_percentageRows (rows : List ObsRow) (d : String) :
    (percentageRows rows).filter (fun r => r.date == d) =
      ((monthly_species_count rows).filter (fun t => t.1 == d)).map
        (fun t => ⟨t.1, t.2.1, t.2.2, pctShare t.2.2 (monthly_total_count rows t.1)⟩) := by
  unfold percentageRows
  rw [List.filter_map]
  rfl

/-- Shape of a row of the aggregated table: its count is the group sum of
its key, and its date is the date of some input row. -/
theorem mem_monthly_species_count {rows : List ObsRow}
    {t : String × String × ℤ} (ht : t ∈ monthly_species_count rows) :
    t.2.2 = sumCounts rows t.1 t.2.1 ∧ ∃ r ∈ rows, t.1 = r.date := by
  unfold monthly_species_count at ht
  rcases List.mem_map.mp ht with ⟨k, hk, rfl⟩
  refine ⟨rfl, ?_⟩
  unfold groupKeys at hk
  rcases List.mem_map.mp (List.mem_dedup.mp hk) with ⟨r, hr, rfl⟩
  exact ⟨r, hr, rfl⟩

/-- Group sums are non-negative when all counts are. -/
theorem sumCounts_nonneg {rows : List ObsRow}
    (hnn : ∀ r ∈ rows, 0 ≤ r.count) (d s : String) :
    0 ≤ sumCounts rows d s := by
  unfold sumCounts
  refine List.sum_nonneg ?_
  intro x hx
  rcases List.mem_map.mp hx with ⟨r, hr, rfl⟩
  exact hnn r (List.mem_filter.mp hr).1

/-- In a bucket whose total is zero (with non-negative counts), every group
sum is zero. -/
theorem bucket_sums_zero {rows : List ObsRow} {d : String}
    (hnn : ∀ r ∈ rows, 0 ≤ r.count) (hz : monthly_total_count rows d = 0) :
    ∀ t ∈ (monthly_species_count rows).filter (fun t => t.1 == d),
      t.2.2 = 0 := by
  intro t ht
  have hmem : t.2.2 ∈ ((monthly_species_count rows).filter
      (fun t => t.1 == d)).map (fun t => t.2.2) :=
    List.mem_map.mpr ⟨t, ht, rfl⟩
  refine sum_zero_all_zero _ ?_ hz t.2.2 hmem
  intro x hx
  rcases List.mem_map.mp hx with ⟨u, hu, rfl⟩
  have hu' := (mem_monthly_species_count (List.mem_filter.mp hu).1).1
  rw [hu']
  exact sumCounts_nonneg hnn _ _

/-- C4 as stated is false: a parent bucket whose total count is zero is
*not* guarded — its rows are emitted, and the emitted percentage is NaN
(`0/0`), at the concrete input of a single zero-count observation. -/
theorem C4_counterexample :
    monthly_total_count [⟨"01-Jan", "A", 0⟩] "01-Jan" = 0 ∧
    (percentageRows [⟨"01-Jan", "A", 0⟩]).filter
      (fun r => r.date == "01-Jan") ≠ [] ∧
    (⟨"01-Jan", "A", 0, .nan⟩ : PctRow) ∈ percentageRows [⟨"01-Jan", "A", 0⟩] := by
  refine ⟨by decide, by decide, by decide⟩

/-- C4 (amended): a parent bucket with no input rows produces no output
rows; but a nonempty bucket whose counts sum to zero is not guarded — each
of its rows is emitted with a NaN percentage (`0/0`); with non-negative
counts no `±Inf` percentage is ever produced. -/
theorem C4_zero_bucket :
    (∀ (rows : List ObsRow) (d : String), (∀ r ∈ rows, r.date ≠ d) →
      (percentageRows rows).filter (fun r => r.date == d) = []) ∧
    (∀ (rows : List ObsRow) (d : String), (∀ r ∈ rows, 0 ≤ r.count) →
      monthly_total_count rows d = 0 →
      ∀ r ∈ (percentageRows rows).filter (fun r => r.date == d),
        r.pct = .nan) ∧
    (∀ rows : List ObsRow, (∀ r ∈ rows, 0 ≤ r.count) →
      ∀ r ∈ percentageRows rows, r.pct ≠ .pinf ∧ r.pct ≠ .ninf) := by
  refine ⟨?_, ?_, ?_⟩
  · intro rows d hnod
    rw [filter_percentageRows]
    have hnil : (monthly_species_count rows).filter (fun t => t.1 == d) = [] := by
      rw [List.filter_eq_nil_iff]
      intro t ht hbeq
      rcases (mem_monthly_species_count ht).2 with ⟨r, hr, hrd⟩
      exact hnod r hr (by rw [← hrd]; exact eq_of_beq hbeq)
    rw [hnil]
    rfl
  · intro rows d hnn hz r hr
    rw [filter_percentageRows] at hr
    rcases List.mem_map.mp hr with ⟨t, ht, rfl⟩
    have ht0 : t.2.2 = 0 := bucket_sums_zero hnn hz t ht
    have htd : t.1 = d := eq_of_beq (List.mem_filter.mp ht).2
    show pctShare t.2.2 (monthly_total_count rows t.1) = .nan
    rw [ht0, htd, hz]
    rfl
  · intro rows hnn r hr
    unfold percentageRows at hr
    rcases List.mem_map.mp hr with ⟨t, ht, rfl⟩
    show pctShare t.2.2 (monthly_total_count rows t.1) ≠ .pinf ∧
      pctShare t.2.2 (monthly_total_count rows t.1) ≠ .ninf
    by_cases hT : monthly_total_count rows t.1 = 0
    · have ht' : t ∈ (monthly_species_count rows).filter
          (fun u => u.1 == t.1) :=
        List.mem_filter.mpr ⟨ht, beq_self_eq_true t.1⟩
      have ht0 : t.2.2 = 0 := bucket_sums_zero hnn hT t ht'
      rw [ht0, hT]
      exact ⟨by decide, by decide⟩
    · unfold pctShare
      rw [if_neg hT]
      exact ⟨fun h => PFloat.noConfusion h, fun h => PFloat.noConfusion h⟩

/-- Witness for C4 (amended): a date absent from the input produces no
output rows. -/
theorem C4_zero_bucket_witness :
    (percentageRows [⟨"01-Jan", "A", 3⟩]).filter
      (fun r => r.date == "02-Feb") = [] :=
  C4_zero_bucket.1 [⟨"01-Jan", "A", 3⟩] "02-Feb" (by decide)

/-- C5: within any date bucket whose total is nonzero, every emitted share
is a finite value and the shares sum to exactly 100; and on the concrete
input `[(A, 3, 01-Jan), (B, 1, 01-Jan)]` the output shares are exactly
`A ↦ 75.0`, `B ↦ 25.0`. -/
theorem C5_shares_sum_100 (rows : List ObsRow) (d : String)
    (h : monthly_total_count rows d ≠ 0) :
    (∀ r ∈ (percentageRows rows).filter (fun r => r.date == d),
      r.pct.isVal = true) ∧
    ((((percentageRows rows).filter (fun r => r.date == d)).filterMap
        (fun r => r.pct.toVal)).sum = 100) ∧
    percentageRows [⟨"01-Jan", "A", 3⟩, ⟨"01-Jan", "B", 1⟩] =
      [⟨"01-Jan", "A", 3, .val 75⟩, ⟨"01-Jan", "B", 1, .val 25⟩] := by
  have hcong : ∀ t ∈ (monthly_species_count rows).filter (fun t => t.1 == d),
      monthly_total_count rows t.1 = monthly_total_count rows d := by
    intro t ht
    rw [eq_of_beq (List.mem_filter.mp ht).2]
  refine ⟨?_, ?_, ?_⟩
  · intro r hr
    rw [filter_percentageRows] at hr
    rcases List.mem_map.mp hr with ⟨t, ht, rfl⟩
    show (pctShare t.2.2 (monthly_total_count rows t.1)).isVal = true
    rw [hcong t ht]
    unfold pctShare
    rw [if_neg h]
    rfl
  · rw [filter_percentageRows]
    rw [List.filterMap_map]
    set L := (monthly_species_count rows).filter (fun t => t.1 == d) with hL
    have hTsum : (L.map (fun t => t.2.2)).sum = monthly_total_count rows d := rfl
    have hfm : L.filterMap ((fun r : PctRow => r.pct.toVal) ∘
        (fun t : String × String × ℤ =>
          (⟨t.1, t.2.1, t.2.2, pctShare t.2.2 (monthly_total_count rows t.1)⟩ : PctRow))) =
        L.map (fun t => (t.2.2 : ℚ) / ((monthly_total_count rows d : ℤ) : ℚ) * 100) := by
      rw [List.filterMap_eq_map_iff_forall_eq_some.mpr]
      intro t ht
      show (pctShare t.2.2 (monthly_total_count rows t.1)).toVal = some _
      rw [hcong t ht]
      unfold pctShare
      rw [if_neg h]
      rfl
    rw [hfm]
    have hterm : L.map (fun t => (t.2.2 : ℚ) /
        ((monthly_total_count rows d : ℤ) : ℚ) * 100) =
        L.map (fun t => (t.2.2 : ℚ) *
          (100 / ((monthly_total_count rows d : ℤ) : ℚ))) := by
      refine List.map_congr_left ?_
      intro t _
      ring
    rw [hterm, List.sum_map_mul_right]
    have hcast : (L.map (fun t => ((t.2.2 : ℤ) : ℚ))).sum =
        (((L.map (fun t => t.2.2)).sum : ℤ) : ℚ) := by
      rw [show (((L.map (fun t => t.2.2)).sum : ℤ) : ℚ) =
          (Int.castRingHom ℚ) ((L.map (fun t => t.2.2)).sum) from rfl]
      rw [map_list_sum, List.map_map]
      rfl
    rw [hcast, hTsum]
    have hQ : ((monthly_total_count rows d : ℤ) : ℚ) ≠ 0 :=
      Int.cast_ne_zero.mpr h
    field_simp
  · simp +decide [percentageRows, monthly_species_count, groupKeys, sumCounts,
      monthly_total_count, pctShare]
    norm_num

/-- Witness for C5 at the spec's concrete example: the January shares sum
to 100. -/
theorem C5_shares_sum_100_witness :
    (((percentageRows [⟨"01-Jan", "A", 3⟩, ⟨"01-Jan", "B", 1⟩]).filter
        (fun r => r.date == "01-Jan")).filterMap
      (fun r => r.pct.toVal)).sum = 100 :=
  (C5_shares_sum_100 [⟨"01-Jan", "A", 3⟩, ⟨"01-Jan", "B", 1⟩] "01-Jan"
    (by decide)).2.1

/-! ## Claim C6 -/

/-- C6 as stated is false: a month bucket holding exactly one species can
have a strictly positive Shannon index, because the proportions are per
observation row, not per species — two rows of the same species with
count 1 give index `ln 2 ≠ 0`. -/
theorem C6_counterexample :
    speciesCountOfMonth [("A", 1), ("A", 1)] = 1 ∧
    shannonOfMonth [("A", 1), ("A", 1)] ≠ 0 := by
  constructor
  · decide
  · have hval : shannonOfMonth [("A", 1), ("A", 1)] = Real.log 2 := by
      unfold shannonOfMonth calculate_shannon_diversity
      norm_num
      rw [show (1 : ℝ) / 2 = 2⁻¹ by norm_num, Real.log_inv]
      ring
    rw [hval]
    exact ne_of_gt (Real.log_pos one_lt_two)

/-- C6 (amended): the monthly Shannon index is 0 exactly for buckets with
a single retained (positive-count) observation row; it is strictly
positive as soon as the bucket retains two or more rows — in particular
whenever two or more species have nonzero share, but also for a
single-species bucket with several rows. -/
theorem C6_shannon_sign (rows : List (String × ℤ)) :
    ((rows.filter (fun r => decide (0 < r.2))).length = 1 →
      shannonOfMonth rows = 0) ∧
    (2 ≤ (rows.filter (fun r => decide (0 < r.2))).length →
      0 < shannonOfMonth rows) ∧
    (2 ≤ speciesCountOfMonth rows → 0 < shannonOfMonth rows) := by
  set F := rows.filter (fun r => decide (0 < r.2)) with hF
  have hpos : ∀ c ∈ F.map (fun r => r.2), 0 < c := by
    intro c hc
    rcases List.mem_map.mp hc with ⟨r, hr, rfl⟩
    exact of_decide_eq_true (List.mem_filter.mp hr).2
  have hlen2 : 2 ≤ F.length → 0 < shannonOfMonth rows := by
    intro h2
    set counts := F.map (fun r => r.2) with hcounts
    have hclen : counts.length = F.length := List.length_map F _
    have hcne : counts ≠ [] := by
      intro hnil
      rw [hnil] at hclen
      simp at hclen
      omega
    have hT : 0 < counts.sum := List.sum_pos counts hpos hcne
    have hlt : ∀ c ∈ counts, c < counts.sum := by
      intro c hc
      rcases List.append_of_mem hc with ⟨s, t, hst⟩
      have hsum : counts.sum = s.sum + (c + t.sum) := by
        rw [hst, List.sum_append, List.sum_cons]
      have hsnn : 0 ≤ s.sum :=
        List.sum_nonneg (fun x hx =>
          (hpos x (hst ▸ List.mem_append_left _ hx)).le)
      have htnn : 0 ≤ t.sum :=
        List.sum_nonneg (fun x hx =>
          (hpos x (hst ▸ List.mem_append_right _ (List.mem_cons_of_mem c hx))).le)
      have hother : 0 < s.sum + t.sum := by
        cases s with
        | cons a u =>
          have : 0 < (a :: u).sum :=
            List.sum_pos _ (fun x hx =>
              hpos x (hst ▸ List.mem_append_left _ hx)) (by simp)
          linarith
        | nil =>
          cases t with
          | cons a u =>
            have : 0 < (a :: u).sum :=
              List.sum_pos _ (fun x hx =>
                hpos x (hst ▸ List.mem_append_right _
                  (List.mem_cons_of_mem c hx))) (by simp)
            simpa using this
          | nil =>
            rw [hst] at hclen
            simp at hclen
            omega
      omega
    show 0 < calculate_shannon_diversity counts
    unfold calculate_shannon_diversity
    have hneg : (counts.map (fun c : ℤ =>
        ((c : ℝ) / ((counts.sum : ℤ) : ℝ)) *
          Real.log ((c : ℝ) / ((counts.sum : ℤ) : ℝ)))).sum < 0 := by
      refine sum_neg_of_all_neg _ ?_ ?_
      · intro hnil
        rw [List.map_eq_nil_iff] at hnil
        exact hcne hnil
      · intro x hx
        rcases List.mem_map.mp hx with ⟨c, hc, rfl⟩
        have hc0 : 0 < c := hpos c hc
        have hcT : c < counts.sum := hlt c hc
        have hp0 : 0 < (c : ℝ) / ((counts.sum : ℤ) : ℝ) :=
          div_pos (by exact_mod_cast hc0) (by exact_mod_cast hT)
        have hp1 : (c : ℝ) / ((counts.sum : ℤ) : ℝ) < 1 :=
          (div_lt_one (by exact_mod_cast hT)).mpr (by exact_mod_cast hcT)
        exact mul_neg_of_pos_of_neg hp0 (Real.log_neg hp0 hp1)
    linarith
  refine ⟨?_, hlen2, ?_⟩
  · intro h1
    rcases List.length_eq_one.mp h1 with ⟨x, hx⟩
    have hx2 : 0 < x.2 := hpos x.2 (by rw [hx]; simp)
    show calculate_shannon_diversity (F.map (fun r => r.2)) = 0
    rw [hx]
    unfold calculate_shannon_diversity
    have hd : ((x.2 : ℝ) / (([x].map (fun r => r.2)).sum : ℤ) : ℝ) = 1 := by
      have : ([x].map (fun r : String × ℤ => r.2)).sum = x.2 := by simp
      rw [this]
      exact div_self (by exact_mod_cast hx2.ne')
    simp only [List.map_cons, List.map_nil, List.sum_cons, List.sum_nil,
      add_zero] at hd ⊢
    rw [hd, Real.log_one, mul_zero, neg_zero]
  · intro hsc
    refine hlen2 ?_
    have h1 : speciesCountOfMonth rows ≤ (F.map (fun r => r.1)).length :=
      (List.dedup_sublist _).length_le
    have h2 : (F.map (fun r => r.1)).length = F.length := List.length_map F _
    omega

/-- Witness for the amended C6: a bucket with two positive-count rows of
distinct species has strictly positive index. -/
theorem C6_shannon_sign_witness :
    0 < shannonOfMonth [("A", 1), ("B", 1)] :=
  (C6_shannon_sign [("A", 1), ("B", 1)]).2.2 (by decide)

/-! ## Claim C7 -/

/-- The first element surviving `dropWhile` fails the predicate. -/
theorem not_isDigit_head_dropWhile :
    ∀ (l : List Char) (c : Char) (u : List Char),
      l.dropWhile Char.isDigit = c :: u → ¬ c.isDigit := by
  intro l
  induction l with
  | nil => intro c u h; cases h
  | cons a t ih =>
    intro c u h
    rw [List.dropWhile_cons] at h
    by_cases ha : a.isDigit
    · rw [if_pos ha] at h
      exact ih c u h
    · rw [if_neg ha] at h
      injection h with h1 h2
      subst h1
      exact ha

/-- The letter accumulator is untouched by a run of digit characters. -/
theorem foldl_regionKeyStep_snd (ds : List Char) :
    ∀ (a : Option ℕ) (str : String), (∀ c ∈ ds, c.isDigit) →
      (ds.foldl regionKeyStep (a, str)).2 = str := by
  induction ds with
  | nil => intro a str _; rfl
  | cons d t ih =>
    intro a str hdig
    rw [List.foldl_cons]
    unfold regionKeyStep
    rw [if_pos (hdig d (List.mem_cons_self d t))]
    exact ih _ str (fun c hc => hdig c (List.mem_cons_of_mem d hc))

/-- Folding a run of digit characters accumulates their decimal value. -/
theorem foldl_regionKeyStep_fst (ds : List Char) :
    ∀ (a : Option ℕ) (str : String), (∀ c ∈ ds, c.isDigit) →
      ((ds.foldl regionKeyStep (a, str)).1).getD 0 =
        (a.getD 0) * 10 ^ ds.length +
          Nat.ofDigits 10 ((ds.map (fun c => c.toNat - 48)).reverse) := by
  induction ds with
  | nil => intro a str _; simp [Nat.ofDigits]
  | cons d t ih =>
    intro a str hdig
    rw [List.foldl_cons]
    have hstep : regionKeyStep (a, str) d =
        (some ((a.getD 0) * 10 + (d.toNat - 48)), str) := by
      unfold regionKeyStep
      rw [if_pos (hdig d (List.mem_cons_self d t))]
    rw [hstep]
    rw [ih (some ((a.getD 0) * 10 + (d.toNat - 48))) str
      (fun c hc => hdig c (List.mem_cons_of_mem d hc))]
    rw [List.map_cons, List.reverse_cons, Nat.ofDigits_append]
    simp only [Option.getD_some, List.length_cons, List.length_reverse,
      List.length_map, Nat.ofDigits_singleton]
    ring

/-- C7: the region sort key of a well-formed region code (a digit prefix
followed by at most one letter) is exactly the pair (numeric prefix as a
decimal integer, trailing letter substring); keys are compared first by
number, then by letter, so `2A` sorts before `10B` and `5A` before `5B` —
while plain lexicographic string order would instead put `10B` before
`2A`. -/
theorem C7_region_sort_key :
    (∀ s : String, (s.toList.dropWhile Char.isDigit).length ≤ 1 →
      region_sort_key s = specRegionKey s) ∧
    keyLt (region_sort_key "2A") (region_sort_key "10B") ∧
    keyLt (region_sort_key "5A") (region_sort_key "5B") ∧
    ("10B" : String) < "2A" := by
  refine ⟨?_, ?_, ?_, ?_⟩
  case refine_2 =>
    rw [show region_sort_key "2A" = (2, "A") from by decide,
      show region_sort_key "10B" = (10, "B") from by decide]
    exact Or.inl (by norm_num)
  case refine_3 =>
    rw [show region_sort_key "5A" = (5, "A") from by decide,
      show region_sort_key "5B" = (5, "B") from by decide]
    exact Or.inr ⟨rfl, by rw [String.lt_iff_toList_lt]; decide⟩
  case refine_4 =>
    rw [String.lt_iff_toList_lt]
    decide
  intro s hlen
  have hdig : ∀ c ∈ s.toList.takeWhile Char.isDigit, c.isDigit :=
    fun c hc => List.mem_takeWhile_imp hc
  have hsplit : s.toList.takeWhile Char.isDigit ++
      s.toList.dropWhile Char.isDigit = s.toList :=
    List.takeWhile_append_dropWhile Char.isDigit s.toList
  have hkey : region_sort_key s =
      ((((s.toList.takeWhile Char.isDigit ++
          s.toList.dropWhile Char.isDigit).foldl regionKeyStep
            (none, "")).1).getD 0,
       ((s.toList.takeWhile Char.isDigit ++
          s.toList.dropWhile Char.isDigit).foldl regionKeyStep
            (none, "")).2) := by
    unfold region_sort_key
    rw [hsplit]
  have hspec : specRegionKey s =
      (Nat.ofDigits 10 (((s.toList.takeWhile Char.isDigit).map
          (fun c => c.toNat - 48)).reverse),
       String.mk (s.toList.dropWhile Char.isDigit)) := rfl
  rw [hkey, hspec]
  cases hts : s.toList.dropWhile Char.isDigit with
  | nil =>
    rw [List.append_nil]
    refine Prod.ext ?_ ?_
    · show ((s.toList.takeWhile Char.isDigit).foldl regionKeyStep
        (none, "")).1.getD 0 = _
      rw [foldl_regionKeyStep_fst _ none "" hdig]
      simp
    · show ((s.toList.takeWhile Char.isDigit).foldl regionKeyStep
        (none, "")).2 = _
      rw [foldl_regionKeyStep_snd _ none "" hdig]
  | cons c u =>
    have hu : u = [] := by
      rw [hts] at hlen
      simp only [List.length_cons] at hlen
      exact List.eq_nil_of_length_eq_zero (by omega)
    subst hu
    have hcnd : ¬ c.isDigit := not_isDigit_head_dropWhile s.toList c [] hts
    rw [List.foldl_append, List.foldl_cons, List.foldl_nil]
    have hstep : regionKeyStep
        ((s.toList.takeWhile Char.isDigit).foldl regionKeyStep (none, "")) c =
        (((s.toList.takeWhile Char.isDigit).foldl regionKeyStep (none, "")).1,
          String.mk [c]) := by
      unfold regionKeyStep
      rw [if_neg hcnd]
    rw [hstep]
    refine Prod.ext ?_ ?_
    · show ((s.toList.takeWhile Char.isDigit).foldl regionKeyStep
        (none, "")).1.getD 0 = _
      rw [foldl_regionKeyStep_fst _ none "" hdig]
      simp
    · rfl

/-- Witness for C7 at the concrete well-formed code `5A`. -/
theorem C7_region_sort_key_witness :
    region_sort_key "5A" = specRegionKey "5A" :=
  C7_region_sort_key.1 "5A" (by decide)

/-! ## Claim C8 -/

/-- Deduplicated length is monotone under sublists. -/
theorem dedup_length_le_of_sublist {l1 l2 : List String}
    (h : List.Sublist l1 l2) :
    l1.dedup.length ≤ l2.dedup.length := by
  rw [← List.card_toFinset, ← List.card_toFinset]
  refine Finset.card_le_card ?_
  intro x hx
  rw [List.mem_toFinset] at hx ⊢
  exact h.subset hx

/-- C8: species richness (distinct species over positive-count rows) of
every group — yearly per-region and monthly — is monotone under adding
observation rows. -/
theorem C8_richness_monotone (rows1 rows2 : List RichRow)
    (h : List.Sublist rows1 rows2) :
    (∀ g, species_richness_by_region rows1 g ≤
      species_richness_by_region rows2 g) ∧
    (∀ m, species_richness_month rows1 m ≤
      species_richness_month rows2 m) := by
  constructor
  · intro g
    exact dedup_length_le_of_sublist
      (((h.filter _).filter _).map (fun r => r.species))
  · intro m
    exact dedup_length_le_of_sublist
      (((h.filter _).filter _).map (fun r => r.species))

/-- Witness for C8: adding one row to a one-row table does not decrease
the region richness. -/
theorem C8_richness_monotone_witness :
    species_richness_by_region [⟨"1A", "05-Jan", "A", 1⟩] "1A" ≤
      species_richness_by_region
        [⟨"1A", "05-Jan", "A", 1⟩, ⟨"1A", "05-Jan", "B", 2⟩] "1A" :=
  (C8_richness_monotone _ _
    ((List.nil_sublist [⟨"1A", "05-Jan", "B", 2⟩]).cons₂ ⟨"1A", "05-Jan", "A", 1⟩)).1 "1A"

/-! ## Claim C9 -/

/-- C9: a species gets an entry in `species_data` (and hence a suitability
grid) iff it has at least `min_observations = 15` rows; and a covariate
gets an entry in a species' `env_stats` iff it has at least 6 non-missing
sample values. -/
theorem C9_minimum_thresholds :
    (∀ (rows : List Obs) (s : String),
      s ∈ valid_species rows ↔ 15 ≤ countObs rows s) ∧
    (∀ rows : List Obs,
      ((calculate_environmental_stats rows).tempW.isSome ↔
        6 ≤ (rows.filterMap (fun r => r.tempW)).length) ∧
      ((calculate_environmental_stats rows).salinity.isSome ↔
        6 ≤ (rows.filterMap (fun r => r.salinity)).length) ∧
      ((calculate_environmental_stats rows).detph.isSome ↔
        6 ≤ (rows.filterMap (fun r => r.detph)).length) ∧
      ((calculate_environmental_stats rows).pH.isSome ↔
        6 ≤ (rows.filterMap (fun r => r.pH)).length) ∧
      ((calculate_environmental_stats rows).chl.isSome ↔
        6 ≤ (rows.filterMap (fun r => r.chl)).length) ∧
      ((calculate_environmental_stats rows).o2con.isSome ↔
        6 ≤ (rows.filterMap (fun r => r.o2con)).length)) := by
  constructor
  · intro rows s
    unfold valid_species
    rw [List.mem_filter]
    constructor
    · intro ⟨_, hdec⟩
      exact of_decide_eq_true hdec
    · intro h15
      refine ⟨?_, decide_eq_true h15⟩
      rw [List.mem_dedup]
      have hpos : 0 < (rows.filter (fun r => r.species == s)).length := by
        unfold countObs at h15
        omega
      rcases List.exists_mem_of_length_pos hpos with ⟨r, hr⟩
      rcases List.mem_filter.mp hr with ⟨hrr, hbeq⟩
      exact List.mem_map.mpr ⟨r, hrr, eq_of_beq hbeq⟩
  · intro rows
    exact ⟨isSome_mkStat _, isSome_mkStat _, isSome_mkStat _,
      isSome_mkStat _, isSome_mkStat _, isSome_mkStat _⟩

/-- Witness for C9: a species with exactly 15 rows is kept. -/
theorem C9_minimum_thresholds_witness :
    "A" ∈ valid_species
      (List.replicate 15 ⟨"A", none, none, none, none, none, none⟩) :=
  (C9_minimum_thresholds.1 _ "A").mpr (by decide)
